import Mathlib

/-!
Shallow embedding of `2.process.py` from the cognoma/genes repository.

Tables are lists of rows.  For the pandas dataframes manipulated by
`tidy_split` and `get_chr_symbol_map`, a row is an association list from a
column name to an optional cell (a missing value, pandas `NaN` arising from
the `-` marker in the source files, is `none`).  Cell text is `List Char`,
so that all operations are kernel-computable.  The raw input tables of
`create_history_df` and `create_gene_df` are modelled with typed records
whose fields correspond to the selected source columns, cells already
parsed the way `pandas.read_table` parses them (`na_values='-'`, numeric
columns as integers).
-/

/-- Lexicographic order on character lists, mirroring Python string
comparison by code point (used to model `sort_values` on string columns). -/
def textLe : List Char → List Char → Bool
  | [], _ => true
  | _ :: _, [] => false
  | x :: xs, y :: ys => if x = y then textLe xs ys else decide (x < y)

/-- First occurrence of `sep` inside `s`: the text before it and the text
after it, or `none` when `sep` does not occur. -/
def findSplit (sep : List Char) : List Char → Option (List Char × List Char)
  | [] => none
  | c :: cs =>
    if sep.isPrefixOf (c :: cs) then some ([], (c :: cs).drop sep.length)
    else
      match findSplit sep cs with
      | some (pre, rest) => some (c :: pre, rest)
      | none => none

/-- Fuelled worker for `splitSep`; the fuel is only a structural-recursion
device, `splitSep` always supplies enough of it. -/
def splitSepFuel : Nat → List Char → List Char → List (List Char)
  | 0, _, s => [s]
  | fuel + 1, sep, s =>
    match findSplit sep s with
    | none => [s]
    | some (pre, rest) => pre :: splitSepFuel fuel sep rest

/-- Model of Python `s.split(sep)` for a nonempty separator: split at every
occurrence of `sep`, keeping empty pieces, so that `splitSep sep s` is never
empty and is `[s]` when `sep` does not occur in `s`.  (Python raises on an
empty separator; the model is only meaningful for `sep ≠ []`.) -/
def splitSep (sep s : List Char) : List (List Char) :=
  splitSepFuel (s.length + 1) sep s

/-- Insert `a` into `l` before the first element `b` with `le a b`. -/
def orderedInsert {α : Type} (le : α → α → Bool) (a : α) : List α → List α
  | [] => [a]
  | b :: bs => if le a b then a :: b :: bs else b :: orderedInsert le a bs

/-- Insertion sort by a boolean comparator; models `sort_values` (any
correct comparison sort does: the claims only use that the result is a
sorted permutation of the input). -/
def sortBy {α : Type} (le : α → α → Bool) : List α → List α
  | [] => []
  | a :: as => orderedInsert le a (sortBy le as)

/-- A dataframe cell: string data or an integer (entrez identifiers). -/
inductive Cell where
  | str : List Char → Cell
  | int : Int → Cell
deriving DecidableEq

/-- The text of a cell, as produced by pandas `astype(str)`. -/
def Cell.toText : Cell → List Char
  | .str s => s
  | .int n => (toString n).data

/-- A dataframe row: association list from column name to optional cell. -/
def Row : Type := List (String × Option Cell)

instance : DecidableEq Row := by
  unfold Row
  infer_instance

/-- The cell stored in row `r` under column `c` (`none` when the column is
absent or holds a missing value). -/
def getCell (r : Row) (c : String) : Option Cell :=
  match r with
  | [] => none
  | (c₀, v) :: rest => if c₀ = c then v else getCell rest c

/-- Overwrite column `c` of row `r` with the (present) cell `v`, leaving
every other column unchanged. -/
def setCell (r : Row) (c : String) (v : Cell) : Row :=
  r.map (fun p => if p.1 = c then (c, some v) else p)

/-- Model of `df.loc[:, cols]`: keep the listed columns, in the given
order.  (In the pipeline the selected columns always exist in the rows.) -/
def loc (cols : List String) (r : Row) : Row :=
  cols.map (fun c => (c, getCell r c))

/-- Model of `df.rename(columns={old: new})` on one row. -/
def renameCol (old new : String) (r : Row) : Row :=
  r.map (fun p => if p.1 = old then (new, p.2) else p)

/-- Model of `tidy_split(df, column, sep, keep)` from `2.process.py`:
drop the rows whose target column is missing, then replace each remaining
row by one copy per separator-delimited substring of its target field, the
presplit combined value first as an extra copy when `keep` is true and the
field held more than one value. -/
def tidy_split (df : List Row) (column : String) (sep : List Char) (keep : Bool) :
    List Row :=
  (df.filter (fun r => (getCell r column).isSome)).flatMap (fun r =>
    match getCell r column with
    | none => []
    | some cell =>
      let presplit := cell.toText
      let values := splitSep sep presplit
      let pre := if keep && decide (1 < values.length) then [presplit] else []
      (pre ++ values).map (fun v => setCell r column (Cell.str v)))

/-- Model of `drop_duplicates(subset, keep=False)`: keep exactly the rows
whose key occurs exactly once in the whole list, in their original order. -/
def drop_duplicates_none {α β : Type} [DecidableEq β] (key : α → β) (l : List α) :
    List α :=
  l.filter (fun a => l.countP (fun b => decide (key b = key a)) = 1)

/-- Model of `drop_duplicates(subset, keep='first')`: keep the first row of
each key, in order; `seen` accumulates the keys already emitted. -/
def drop_duplicates_first {α β : Type} [DecidableEq β] (key : α → β) :
    List β → List α → List α
  | _, [] => []
  | seen, a :: as =>
    if key a ∈ seen then drop_duplicates_first key seen as
    else a :: drop_duplicates_first key (key a :: seen) as

/-- The deduplication key of `get_chr_symbol_map`: the
`['chromosome', 'symbol']` subset of a row. -/
def keyCS (r : Row) : Option Cell × Option Cell :=
  (getCell r "chromosome", getCell r "symbol")

/-- The separator `'|'` used for the multi-valued fields. -/
def sepBar : List Char := "|".data

/-- The primary candidates of `get_chr_symbol_map`: approved symbols, with
the chromosome column exploded keeping the combined value. -/
def primary_df (gene_df : List Row) : List Row :=
  tidy_split (gene_df.map (loc ["entrez_gene_id", "chromosome", "symbol"]))
    "chromosome" sepBar true

/-- The synonym candidates of `get_chr_symbol_map` before disambiguation:
synonyms renamed to `symbol` and exploded (combined value not kept), then
the chromosome column exploded keeping the combined value. -/
def synonym_candidates (gene_df : List Row) : List Row :=
  tidy_split
    (tidy_split
      (gene_df.map (fun r =>
        renameCol "synonyms" "symbol" (loc ["entrez_gene_id", "chromosome", "synonyms"] r)))
      "symbol" sepBar false)
    "chromosome" sepBar true

/-- The synonym candidates after `drop_duplicates(['chromosome','symbol'],
keep=False)`: ambiguous (chromosome, symbol) pairs fully removed. -/
def synonym_df (gene_df : List Row) : List Row :=
  drop_duplicates_none keyCS (synonym_candidates gene_df)

/-- Comparator of the final `sort_values(['symbol', 'chromosome'])`:
lexicographic on the two string columns, missing values last. -/
def cellTextLe : Option Cell → Option Cell → Bool
  | some a, some b => textLe a.toText b.toText
  | some _, none => true
  | none, some _ => false
  | none, none => true

/-- Row comparator for the final sort of the symbol lookup table. -/
def mapRowLe (a b : Row) : Bool :=
  if getCell a "symbol" = getCell b "symbol" then
    cellTextLe (getCell a "chromosome") (getCell b "chromosome")
  else cellTextLe (getCell a "symbol") (getCell b "symbol")

/-- Model of `get_chr_symbol_map(gene_df)` from `2.process.py`: primary
candidates followed by the surviving synonym candidates, deduplicated on
(chromosome, symbol) keeping the first occurrence, projected to
(symbol, chromosome, entrez_gene_id) and sorted by symbol then chromosome. -/
def get_chr_symbol_map (gene_df : List Row) : List Row :=
  sortBy mapRowLe
    ((drop_duplicates_first keyCS [] (primary_df gene_df ++ synonym_df gene_df)).map
      (loc ["symbol", "chromosome", "entrez_gene_id"]))

/-- A raw row of `gene_history.gz` restricted to the columns selected by
`create_history_df`, after `read_table` parsing (`na_values='-'`). -/
structure HistoryRow where
  tax_id : Option Int
  geneID : Option Int
  discontinued_GeneID : Option Int
  discontinue_Date : Option (List Char)
deriving DecidableEq

/-- An output row of `create_history_df` after the rename and the cast of
`new_entrez_gene_id` to integer. -/
structure HistoryOut where
  old_entrez_gene_id : Option Int
  new_entrez_gene_id : Int
  date : Option (List Char)
deriving DecidableEq

/-- Comparator of `sort_values('old_entrez_gene_id')`: ascending, missing
values last. -/
def historyLe (a b : HistoryOut) : Bool :=
  match a.old_entrez_gene_id, b.old_entrez_gene_id with
  | some x, some y => decide (x ≤ y)
  | some _, none => true
  | none, some _ => false
  | none, none => true

/-- Model of `create_history_df(path)` from `2.process.py`: select and
rename the columns, keep the rows with `tax_id == 9606`, drop the rows
with a missing `new_entrez_gene_id`, sort ascending by
`old_entrez_gene_id`, and cast `new_entrez_gene_id` to integer. -/
def create_history_df (rows : List HistoryRow) : List HistoryOut :=
  sortBy historyLe
    ((rows.filter (fun r => decide (r.tax_id = some 9606))).filterMap (fun r =>
      r.geneID.map (fun n =>
        { old_entrez_gene_id := r.discontinued_GeneID
          new_entrez_gene_id := n
          date := r.discontinue_Date })))

/-- A raw row of `Homo_sapiens.gene_info.gz` restricted to the columns
selected by `create_gene_df`, after `read_table` parsing (`na_values='-'`). -/
structure GeneInfoRow where
  tax_id : Option Int
  geneID : Option Int
  symbol : Option (List Char)
  dbXrefs : Option (List Char)
  description : Option (List Char)
  chromosome : Option (List Char)
  type_of_gene : Option (List Char)
  synonyms : Option (List Char)
  other_designations : Option (List Char)
deriving DecidableEq

/-- The renaming of a raw gene row into the gene catalog schema, in the
order of `create_gene_df`'s renamer (`tax_id` already dropped). -/
def geneToRow (g : GeneInfoRow) : Row :=
  [("entrez_gene_id", g.geneID.map Cell.int),
   ("symbol", g.symbol.map Cell.str),
   ("other_id", g.dbXrefs.map Cell.str),
   ("description", g.description.map Cell.str),
   ("chromosome", g.chromosome.map Cell.str),
   ("gene_type", g.type_of_gene.map Cell.str),
   ("synonyms", g.synonyms.map Cell.str),
   ("aliases", g.other_designations.map Cell.str)]

/-- Integer comparison of entrez cells: ascending, non-integers last
(mirroring `sort_values` on the numeric identifier column). -/
def cellIntLe : Option Cell → Option Cell → Bool
  | some (Cell.int x), some (Cell.int y) => decide (x ≤ y)
  | some (Cell.int _), _ => true
  | _, some (Cell.int _) => false
  | _, _ => true

/-- Row comparator of `sort_values('entrez_gene_id')`. -/
def entrezLe (a b : Row) : Bool :=
  cellIntLe (getCell a "entrez_gene_id") (getCell b "entrez_gene_id")

/-- Model of `create_gene_df(path)` (via `get_gene_info` with
`create_gene_df`'s renamer): select and rename the columns, keep the rows
with `tax_id == 9606`, drop the taxon column, sort ascending by
`entrez_gene_id`. -/
def create_gene_df (raw : List GeneInfoRow) : List Row :=
  sortBy entrezLe ((raw.filter (fun g => decide (g.tax_id = some 9606))).map geneToRow)

/-- The ordered renamer of `create_gene_df`: source column to output
column, exactly as in `2.process.py`. -/
def create_gene_df_renamer : List (String × String) :=
  [("GeneID", "entrez_gene_id"),
   ("Symbol", "symbol"),
   ("dbXrefs", "other_id"),
   ("description", "description"),
   ("chromosome", "chromosome"),
   ("type_of_gene", "gene_type"),
   ("Synonyms", "synonyms"),
   ("Other_designations", "aliases"),
   ("#tax_id", "tax_id")]

/-- The columns of the written gene catalog: the renamer's output names in
order, with the taxon column dropped. -/
def create_gene_df_columns : List String :=
  (create_gene_df_renamer.map Prod.snd).filter (fun c => c ≠ "tax_id")

/-- The output files written by the `__main__` block of `2.process.py`, in
order: history map, gene catalog, gene cross-references, symbol lookup. -/
def main_output_paths : List String :=
  ["data/updater.tsv", "data/genes.tsv", "data/genes-xrefs.tsv",
   "data/chromosome-symbol-mapper.tsv"]

/-- Gene 1 of the precedence example: approved symbol TP53 on chromosome 1,
synonym P53. -/
def gene_tp53 : GeneInfoRow :=
  ⟨some 9606, some 1, some "TP53".data, none, none, some "1".data, none,
   some "P53".data, none⟩

/-- Gene 2 of the precedence example: approved symbol P53 on chromosome 1,
no synonyms. -/
def gene_p53 : GeneInfoRow :=
  ⟨some 9606, some 2, some "P53".data, none, none, some "1".data, none, none, none⟩

/-- A row of the final symbol lookup table. -/
def mapRow (sym chr : String) (n : Int) : Row :=
  [("symbol", some (Cell.str sym.data)), ("chromosome", some (Cell.str chr.data)),
   ("entrez_gene_id", some (Cell.int n))]

/-- First gene of the ambiguous-synonym example: symbol A, synonym X,
chromosome 2. -/
def gene_ax : GeneInfoRow :=
  ⟨some 9606, some 1, some "A".data, none, none, some "2".data, none,
   some "X".data, none⟩

/-- Second gene of the ambiguous-synonym example: symbol B, synonym X,
chromosome 2. -/
def gene_bx : GeneInfoRow :=
  ⟨some 9606, some 2, some "B".data, none, none, some "2".data, none,
   some "X".data, none⟩

/-- A gene with the unique synonym U on chromosome 3. -/
def gene_u : GeneInfoRow :=
  ⟨some 9606, some 4, some "GU".data, none, none, some "3".data, none,
   some "U".data, none⟩

/-- The synonym-candidate row that `gene_u` contributes. -/
def rowU : Row :=
  [("entrez_gene_id", some (Cell.int 4)), ("chromosome", some (Cell.str "3".data)),
   ("symbol", some (Cell.str "U".data))]

/-- A gene with approved symbol DUP on chromosome 1 and identifier 7. -/
def gene_dup7 : GeneInfoRow :=
  ⟨some 9606, some 7, some "DUP".data, none, none, some "1".data, none, none, none⟩

/-- A gene with approved symbol DUP on chromosome 1 and identifier 3. -/
def gene_dup3 : GeneInfoRow :=
  ⟨some 9606, some 3, some "DUP".data, none, none, some "1".data, none, none, none⟩

/-- A generic row whose column v holds the multi-valued field A|B|A. -/
def rowABA : Row :=
  [("v", some (Cell.str "A|B|A".data)), ("w", some (Cell.str "q".data))]

/-- A generic row whose column v is missing. -/
def rowMissing : Row :=
  [("v", none), ("w", some (Cell.str "q".data))]

/-- A generic row whose column v holds the two-valued field A|B. -/
def rowAB : Row :=
  [("v", some (Cell.str "A|B".data))]

/-- A generic row whose column v holds the single value A. -/
def rowSingle : Row :=
  [("v", some (Cell.str "A".data)), ("w", some (Cell.str "q".data))]

/-- A history row for taxon 9606 with a new identifier but no old one. -/
def histNoOld : HistoryRow := ⟨some 9606, some 5, none, none⟩

/-- A history row for taxon 9606 with both identifiers present. -/
def histNormal : HistoryRow := ⟨some 9606, some 10, some 3, some "2020-01-01".data⟩

/-- A history row for taxon 9606 with no new identifier. -/
def histNoNew : HistoryRow := ⟨some 9606, none, some 4, none⟩

/-- A history row with both identifiers present but a non-target taxon. -/
def histMouse : HistoryRow := ⟨some 10090, some 6, some 2, none⟩

/-- A generic two-column row whose column v holds string `s`. -/
def rowVal (s : String) : Row :=
  [("v", some (Cell.str s.data)), ("w", some (Cell.str "q".data))]

/-- The primary candidate row of `gene_p53`. -/
def rowP53primary : Row :=
  [("entrez_gene_id", some (Cell.int 2)), ("chromosome", some (Cell.str "1".data)),
   ("symbol", some (Cell.str "P53".data))]

/-- The (chromosome, symbol) key of the P53 collision example. -/
def keyP53 : Option Cell × Option Cell :=
  (some (Cell.str "1".data), some (Cell.str "P53".data))

/-- The (chromosome, symbol) key of the duplicated-approved-symbol example. -/
def keyDUP : Option Cell × Option Cell :=
  (some (Cell.str "1".data), some (Cell.str "DUP".data))

/-- Inserting with `orderedInsert` permutes consing. -/
theorem perm_orderedInsert {α : Type} (le : α → α → Bool) (a : α) (l : List α) :
    List.Perm (orderedInsert le a l) (a :: l) := by
  induction l with
  | nil => exact List.Perm.refl _
  | cons b bs ih =>
    simp only [orderedInsert]
    by_cases h : le a b
    · simp [h]
    · simp only [h, if_neg, Bool.false_eq_true, not_false_eq_true]
      exact (ih.cons b).trans (List.Perm.swap a b bs)

/-- `sortBy` permutes its input. -/
theorem perm_sortBy {α : Type} (le : α → α → Bool) (l : List α) :
    List.Perm (sortBy le l) l := by
  induction l with
  | nil => exact List.Perm.refl _
  | cons a as ih => exact (perm_orderedInsert le a (sortBy le as)).trans (ih.cons a)

/-- Membership in `orderedInsert`. -/
theorem mem_orderedInsert {α : Type} {le : α → α → Bool} {a x : α} {l : List α} :
    x ∈ orderedInsert le a l ↔ x = a ∨ x ∈ l := by
  rw [(perm_orderedInsert le a l).mem_iff, List.mem_cons]

/-- `orderedInsert` preserves sortedness of a total transitive comparator. -/
theorem pairwise_orderedInsert {α : Type} {le : α → α → Bool}
    (htot : ∀ a b, le a b = true ∨ le b a = true)
    (htrans : ∀ a b c, le a b = true → le b c = true → le a c = true)
    (a : α) {l : List α} (h : List.Pairwise (fun x y => le x y = true) l) :
    List.Pairwise (fun x y => le x y = true) (orderedInsert le a l) := by
  induction l with
  | nil => simp [orderedInsert]
  | cons b bs ih =>
    rcases List.pairwise_cons.mp h with ⟨hb, hbs⟩
    simp only [orderedInsert]
    by_cases hab : le a b = true
    · rw [if_pos hab]
      refine List.pairwise_cons.mpr ⟨?_, h⟩
      intro x hx
      rcases List.mem_cons.mp hx with rfl | hx
      · exact hab
      · exact htrans a b x hab (hb x hx)
    · rw [if_neg hab]
      refine List.pairwise_cons.mpr ⟨?_, ih hbs⟩
      intro x hx
      rcases mem_orderedInsert.mp hx with rfl | hx
      · rcases htot x b with hxb | hbx
        · exact absurd hxb hab
        · exact hbx
      · exact hb x hx

/-- `sortBy` with a total transitive comparator sorts. -/
theorem pairwise_sortBy {α : Type} {le : α → α → Bool}
    (htot : ∀ a b, le a b = true ∨ le b a = true)
    (htrans : ∀ a b c, le a b = true → le b c = true → le a c = true)
    (l : List α) : List.Pairwise (fun x y => le x y = true) (sortBy le l) := by
  induction l with
  | nil => exact List.Pairwise.nil
  | cons a as ih => exact pairwise_orderedInsert htot htrans a ih

/-- `setCell` leaves every other column unchanged. -/
theorem getCell_setCell_ne (r : Row) {c c' : String} (v : Cell) (h : c' ≠ c) :
    getCell (setCell r c v) c' = getCell r c' := by
  induction r with
  | nil => rfl
  | cons p rest ih =>
    rcases p with ⟨c₀, w⟩
    show getCell ((if c₀ = c then (c, some v) else (c₀, w)) :: setCell rest c v) c' = _
    by_cases hc : c₀ = c
    · rw [if_pos hc]
      show (if c = c' then some v else getCell (setCell rest c v) c') = _
      rw [if_neg fun hh => h hh.symm]
      show getCell (setCell rest c v) c' = if c₀ = c' then w else getCell rest c'
      rw [if_neg fun hh => h (by rw [← hh]; exact hc)]
      exact ih
    · rw [if_neg hc]
      show (if c₀ = c' then w else getCell (setCell rest c v) c') = _
      by_cases hc' : c₀ = c'
      · rw [if_pos hc']
        show _ = if c₀ = c' then w else getCell rest c'
        rw [if_pos hc']
      · rw [if_neg hc']
        show _ = if c₀ = c' then w else getCell rest c'
        rw [if_neg hc']
        exact ih

/-- `setCell` stores the new value when the column is present. -/
theorem getCell_setCell_self (r : Row) {c : String} (v : Cell)
    (h : (getCell r c).isSome = true) : getCell (setCell r c v) c = some v := by
  induction r with
  | nil => simp [getCell] at h
  | cons p rest ih =>
    rcases p with ⟨c₀, w⟩
    show getCell ((if c₀ = c then (c, some v) else (c₀, w)) :: setCell rest c v) c = _
    by_cases hc : c₀ = c
    · rw [if_pos hc]
      show (if c = c then some v else getCell (setCell rest c v) c) = some v
      rw [if_pos rfl]
    · rw [if_neg hc]
      show (if c₀ = c then w else getCell (setCell rest c v) c) = some v
      rw [if_neg hc]
      have h' : (getCell rest c).isSome = true := by
        have : getCell ((c₀, w) :: rest) c = getCell rest c := by
          show (if c₀ = c then w else getCell rest c) = _
          rw [if_neg hc]
        rw [this] at h
        exact h
      exact ih h'

/-- `loc` preserves the selected columns. -/
theorem getCell_loc {cols : List String} (r : Row) {c : String} (h : c ∈ cols) :
    getCell (loc cols r) c = getCell r c := by
  induction cols with
  | nil => cases h
  | cons c₀ cs ih =>
    show getCell ((c₀, getCell r c₀) :: loc cs r) c = _
    show (if c₀ = c then getCell r c₀ else getCell (loc cs r) c) = _
    by_cases hc : c₀ = c
    · rw [if_pos hc, hc]
    · rw [if_neg hc]
      rcases List.mem_cons.mp h with h1 | h1
      · exact absurd h1.symm hc
      · exact ih h1

/-- Rows kept by `drop_duplicates_first` come from the input. -/
theorem mem_of_mem_dedupFirst {α β : Type} [DecidableEq β] {key : α → β}
    {seen : List β} {l : List α} {x : α}
    (h : x ∈ drop_duplicates_first key seen l) : x ∈ l := by
  induction l generalizing seen with
  | nil => cases h
  | cons a as ih =>
    simp only [drop_duplicates_first] at h
    by_cases ha : key a ∈ seen
    · rw [if_pos ha] at h
      exact List.mem_cons_of_mem a (ih h)
    · rw [if_neg ha] at h
      rcases List.mem_cons.mp h with rfl | h
      · exact List.mem_cons_self x as
      · exact List.mem_cons_of_mem a (ih h)

/-- Keys kept by `drop_duplicates_first` were not in `seen`. -/
theorem key_notmem_seen_of_mem_dedupFirst {α β : Type} [DecidableEq β] {key : α → β}
    {seen : List β} {l : List α} {x : α}
    (h : x ∈ drop_duplicates_first key seen l) : key x ∉ seen := by
  induction l generalizing seen with
  | nil => cases h
  | cons a as ih =>
    simp only [drop_duplicates_first] at h
    by_cases ha : key a ∈ seen
    · rw [if_pos ha] at h
      exact ih h
    · rw [if_neg ha] at h
      rcases List.mem_cons.mp h with rfl | h
      · exact ha
      · intro hx
        exact ih h (List.mem_cons_of_mem (key a) hx)

/-- `drop_duplicates_first` leaves pairwise-distinct keys. -/
theorem pairwise_dedupFirst {α β : Type} [DecidableEq β] (key : α → β)
    (seen : List β) (l : List α) :
    List.Pairwise (fun x y => key x ≠ key y) (drop_duplicates_first key seen l) := by
  induction l generalizing seen with
  | nil => exact List.Pairwise.nil
  | cons a as ih =>
    simp only [drop_duplicates_first]
    by_cases ha : key a ∈ seen
    · rw [if_pos ha]
      exact ih seen
    · rw [if_neg ha]
      refine List.pairwise_cons.mpr ⟨?_, ih (key a :: seen)⟩
      intro y hy
      have := key_notmem_seen_of_mem_dedupFirst hy
      intro hk
      exact this (hk ▸ List.mem_cons_self (key a) seen)

/-- `drop_duplicates_first` keeps the first row of each fresh key. -/
theorem find?_dedupFirst {α β : Type} [DecidableEq β] {key : α → β} {k : β}
    {seen : List β} (l : List α) (hk : k ∉ seen) :
    (drop_duplicates_first key seen l).find? (fun x => decide (key x = k)) =
      l.find? (fun x => decide (key x = k)) := by
  induction l generalizing seen with
  | nil => rfl
  | cons a as ih =>
    simp only [drop_duplicates_first]
    by_cases ha : key a ∈ seen
    · rw [if_pos ha]
      have hne : ¬ key a = k := fun h => hk (h ▸ ha)
      rw [List.find?_cons_of_neg _ (by simpa using hne)]
      exact ih hk
    · rw [if_neg ha]
      by_cases hak : key a = k
      · rw [List.find?_cons_of_pos _ (by simpa using hak),
          List.find?_cons_of_pos _ (by simpa using hak)]
      · rw [List.find?_cons_of_neg _ (by simpa using hak),
          List.find?_cons_of_neg _ (by simpa using hak)]
        refine ih ?_
        intro hh
        rcases List.mem_cons.mp hh with h | h
        · exact hak h.symm
        · exact hk h

/-- At most one position of a list with pairwise-distinct keys carries a
given key, so two members with equal keys coincide. -/
theorem eq_of_pairwise_key {α β : Type} {f : α → β} {l : List α}
    (hp : List.Pairwise (fun x y => f x ≠ f y) l) {r r' : α}
    (hr : r ∈ l) (hr' : r' ∈ l) (h : f r = f r') : r = r' := by
  induction l with
  | nil => cases hr
  | cons a as ih =>
    rcases List.pairwise_cons.mp hp with ⟨ha, has⟩
    rcases List.mem_cons.mp hr with hr1 | hr1
    · rcases List.mem_cons.mp hr' with hr2 | hr2
      · rw [hr1, hr2]
      · subst hr1
        exact absurd h (ha r' hr2)
    · rcases List.mem_cons.mp hr' with hr2 | hr2
      · subst hr2
        exact absurd h.symm (ha r hr1)
      · exact ih has hr1 hr2

/-- The first match of a sorted list is minimal among all matches. -/
theorem find?_min {α : Type} {le : α → α → Bool} {p : α → Bool}
    (hrefl : ∀ a, le a a = true) {l : List α} {r₀ : α}
    (hl : List.Pairwise (fun x y => le x y = true) l) (h : l.find? p = some r₀) :
    ∀ r ∈ l, p r = true → le r₀ r = true := by
  induction l with
  | nil => simp at h
  | cons a as ih =>
    rcases List.pairwise_cons.mp hl with ⟨ha, has⟩
    intro r hr hp
    by_cases hpa : p a = true
    · rw [List.find?_cons_of_pos _ hpa] at h
      have ha0 : a = r₀ := by injection h
      subst ha0
      rcases List.mem_cons.mp hr with hr1 | hr1
      · rw [hr1]
        exact hrefl a
      · exact ha r hr1
    · rw [List.find?_cons_of_neg _ (by simpa using hpa)] at h
      rcases List.mem_cons.mp hr with hr1 | hr1
      · rw [hr1] at hp
        exact absurd hp hpa
      · exact ih has h r hr1 hp

/-- `cellIntLe` is reflexive. -/
theorem cellIntLe_refl : ∀ x, cellIntLe x x = true := by
  intro x
  rcases x with _ | c
  · rfl
  · rcases c with s | n
    · rfl
    · simp [cellIntLe]

/-- `cellIntLe` is total. -/
theorem cellIntLe_total : ∀ x y, cellIntLe x y = true ∨ cellIntLe y x = true := by
  intro x y
  rcases x with _ | cx <;> rcases y with _ | cy
  · left; rfl
  · rcases cy with s | n
    · left; rfl
    · right; rfl
  · rcases cx with s | n
    · right; rfl
    · left; rfl
  · rcases cx with sx | nx <;> rcases cy with sy | ny
    · left; rfl
    · right; rfl
    · left; rfl
    · simp only [cellIntLe, decide_eq_true_eq]
      omega

/-- `cellIntLe` is transitive. -/
theorem cellIntLe_trans :
    ∀ x y z, cellIntLe x y = true → cellIntLe y z = true → cellIntLe x z = true := by
  intro x y z hxy hyz
  rcases x with _ | (sx | nx) <;> rcases y with _ | (sy | ny) <;>
    rcases z with _ | (sz | nz) <;> simp_all [cellIntLe] <;> omega

/-- `entrezLe` is total. -/
theorem entrezLe_total : ∀ a b, entrezLe a b = true ∨ entrezLe b a = true := by
  intro a b
  exact cellIntLe_total _ _

/-- `entrezLe` is transitive. -/
theorem entrezLe_trans :
    ∀ a b c, entrezLe a b = true → entrezLe b c = true → entrezLe a c = true := by
  intro a b c
  exact cellIntLe_trans _ _ _

/-- `historyLe` is total. -/
theorem historyLe_total : ∀ a b, historyLe a b = true ∨ historyLe b a = true := by
  intro a b
  rcases ha : a.old_entrez_gene_id with _ | x <;> rcases hb : b.old_entrez_gene_id with _ | y <;>
    simp_all [historyLe] <;> omega

/-- `historyLe` is transitive. -/
theorem historyLe_trans :
    ∀ a b c, historyLe a b = true → historyLe b c = true → historyLe a c = true := by
  intro a b c hab hbc
  rcases ha : a.old_entrez_gene_id with _ | x <;>
    rcases hb : b.old_entrez_gene_id with _ | y <;>
    rcases hc : c.old_entrez_gene_id with _ | z <;>
    simp_all [historyLe] <;> omega

/-- `tidy_split` preserves any reflexive pairwise relation that reads a
column other than the split one. -/
theorem pairwise_tidy_split (df : List Row) (column : String) (sep : List Char)
    (keep : Bool) (c₀ : String) (S : Option Cell → Option Cell → Prop)
    (hne : c₀ ≠ column) (hrefl : ∀ x, S x x)
    (h : List.Pairwise (fun a b => S (getCell a c₀) (getCell b c₀)) df) :
    List.Pairwise (fun a b => S (getCell a c₀) (getCell b c₀))
      (tidy_split df column sep keep) := by
  unfold tidy_split
  refine List.pairwise_flatMap.mpr ⟨?_, ?_⟩
  · intro r hr
    refine List.pairwise_of_forall_mem_list ?_
    intro x hx y hy
    rcases hm : getCell r column with _ | cell
    · rw [hm] at hx
      simp at hx
    · rw [hm] at hx hy
      simp only [List.mem_map] at hx hy
      rcases hx with ⟨v, hv, rfl⟩
      rcases hy with ⟨w, hw, rfl⟩
      rw [getCell_setCell_ne _ _ hne, getCell_setCell_ne _ _ hne]
      exact hrefl _
  · have hf : List.Pairwise (fun a b => S (getCell a c₀) (getCell b c₀))
        (df.filter (fun r => (getCell r column).isSome)) := h.filter _
    refine hf.imp ?_
    intro a b hab x hx y hy
    rcases hma : getCell a column with _ | ca
    · rw [hma] at hx
      simp at hx
    · rcases hmb : getCell b column with _ | cb
      · rw [hmb] at hy
        simp at hy
      · rw [hma] at hx
        rw [hmb] at hy
        simp only [List.mem_map] at hx hy
        rcases hx with ⟨v, hv, rfl⟩
        rcases hy with ⟨w, hw, rfl⟩
        rw [getCell_setCell_ne _ _ hne, getCell_setCell_ne _ _ hne]
        exact hab

/-- The gene catalog is sorted ascending by entrez identifier. -/
theorem pairwise_gene_df (raw : List GeneInfoRow) :
    List.Pairwise
      (fun a b => cellIntLe (getCell a "entrez_gene_id") (getCell b "entrez_gene_id") = true)
      (create_gene_df raw) := by
  have h := pairwise_sortBy entrezLe_total entrezLe_trans
    ((raw.filter (fun g => decide (g.tax_id = some 9606))).map geneToRow)
  exact h

/-- The primary candidate rows inherit the ascending identifier order of
the gene catalog. -/
theorem pairwise_primary (raw : List GeneInfoRow) :
    List.Pairwise
      (fun a b => cellIntLe (getCell a "entrez_gene_id") (getCell b "entrez_gene_id") = true)
      (primary_df (create_gene_df raw)) := by
  have hmem : "entrez_gene_id" ∈ ["entrez_gene_id", "chromosome", "symbol"] := by simp
  have h2 : List.Pairwise
      (fun a b =>
        cellIntLe (getCell (loc ["entrez_gene_id", "chromosome", "symbol"] a) "entrez_gene_id")
          (getCell (loc ["entrez_gene_id", "chromosome", "symbol"] b) "entrez_gene_id") = true)
      (create_gene_df raw) := by
    refine (pairwise_gene_df raw).imp ?_
    intro a b hab
    rwa [getCell_loc _ hmem, getCell_loc _ hmem]
  have h3 : List.Pairwise
      (fun a b =>
        cellIntLe (getCell a "entrez_gene_id") (getCell b "entrez_gene_id") = true)
      ((create_gene_df raw).map (loc ["entrez_gene_id", "chromosome", "symbol"])) :=
    List.pairwise_map.mpr h2
  exact pairwise_tidy_split _ "chromosome" _ _ "entrez_gene_id"
    (fun x y => cellIntLe x y = true) (by decide) cellIntLe_refl h3

/-- `keyCS` only reads columns kept by the final projection. -/
theorem keyCS_loc (r : Row) :
    keyCS (loc ["symbol", "chromosome", "entrez_gene_id"] r) = keyCS r := by
  unfold keyCS
  rw [getCell_loc _ (by simp), getCell_loc _ (by simp)]

/-- The final symbol lookup table has pairwise-distinct
(chromosome, symbol) keys. -/
theorem pairwise_map_keys (gene_df : List Row) :
    List.Pairwise (fun a b => keyCS a ≠ keyCS b) (get_chr_symbol_map gene_df) := by
  unfold get_chr_symbol_map
  have hd := pairwise_dedupFirst keyCS ([] : List (Option Cell × Option Cell))
    (primary_df gene_df ++ synonym_df gene_df)
  have hm : List.Pairwise (fun a b => keyCS a ≠ keyCS b)
      ((drop_duplicates_first keyCS [] (primary_df gene_df ++ synonym_df gene_df)).map
        (loc ["symbol", "chromosome", "entrez_gene_id"])) := by
    refine List.pairwise_map.mpr ?_
    refine hd.imp ?_
    intro a b hab
    rw [keyCS_loc, keyCS_loc]
    exact hab
  exact ((perm_sortBy mapRowLe _).pairwise_iff (fun hab h => hab h.symm)).mpr hm

/-- Rows on which the block function is empty can be filtered out of a
flat map without changing it. -/
theorem flatMap_filter {α β : Type} (p : α → Bool) (f : α → List β)
    (hf : ∀ a, p a = false → f a = []) (l : List α) :
    (l.filter p).flatMap f = l.flatMap f := by
  induction l with
  | nil => rfl
  | cons a as ih =>
    rw [List.filter_cons, List.flatMap_cons]
    by_cases hp : p a = true
    · rw [if_pos hp, List.flatMap_cons, ih]
    · have hpa : p a = false := by
        cases hq : p a
        · rfl
        · exact absurd hq hp
      rw [if_neg hp, ih, hf a hpa]
      exact (List.nil_append _).symm

/-- The first row of the merged candidate list with a given key survives,
projected, into the final symbol lookup table. -/
theorem first_key_in_map (gene_df : List Row) (k : Option Cell × Option Cell) (r₀ : Row)
    (h : (primary_df gene_df ++ synonym_df gene_df).find?
      (fun r => decide (keyCS r = k)) = some r₀) :
    loc ["symbol", "chromosome", "entrez_gene_id"] r₀ ∈ get_chr_symbol_map gene_df := by
  have hd : (drop_duplicates_first keyCS []
      (primary_df gene_df ++ synonym_df gene_df)).find?
      (fun r => decide (keyCS r = k)) = some r₀ := by
    rw [find?_dedupFirst _ (List.not_mem_nil k)]
    exact h
  have hmem := List.mem_of_find?_eq_some hd
  have hmap := List.mem_map_of_mem (loc ["symbol", "chromosome", "entrez_gene_id"]) hmem
  unfold get_chr_symbol_map
  exact (perm_sortBy mapRowLe _).mem_iff.mpr hmap

/-- C1: in the final symbol lookup table produced by `get_chr_symbol_map`,
every pair of distinct rows differs in the (symbol, chromosome) pair, so
that pair is a unique key of the output. -/
theorem chr_symbol_map_key_unique (gene_df : List Row) :
    List.Pairwise
      (fun a b =>
        (getCell a "symbol", getCell a "chromosome") ≠
          (getCell b "symbol", getCell b "chromosome"))
      (get_chr_symbol_map gene_df) := by
  refine (pairwise_map_keys gene_df).imp ?_
  intro a b hab h
  simp only [Prod.mk.injEq] at h
  exact hab (by unfold keyCS; rw [h.1, h.2])

set_option maxRecDepth 100000 in
/-- C2: whenever some primary (approved-symbol) candidate row carries a
(chromosome, symbol) key, the final table has exactly one row with that key
and it maps to the first primary candidate's identifier — an approved
symbol always beats a colliding synonym; in particular, on the TP53/P53
example the single row for (symbol P53, chromosome 1) maps to gene 2. -/
theorem approved_symbol_wins :
    (∀ (gene_df : List Row) (k : Option Cell × Option Cell) (r₀ : Row),
        (primary_df gene_df).find? (fun r => decide (keyCS r = k)) = some r₀ →
        ∃ r ∈ get_chr_symbol_map gene_df,
          getCell r "chromosome" = k.1 ∧ getCell r "symbol" = k.2 ∧
          getCell r "entrez_gene_id" = getCell r₀ "entrez_gene_id" ∧
          ∀ r₂ ∈ get_chr_symbol_map gene_df,
            getCell r₂ "chromosome" = k.1 → getCell r₂ "symbol" = k.2 → r₂ = r)
    ∧ get_chr_symbol_map (create_gene_df [gene_tp53, gene_p53]) =
        [mapRow "P53" "1" 2, mapRow "TP53" "1" 1] := by
  constructor
  · intro gene_df k r₀ h
    have happ : (primary_df gene_df ++ synonym_df gene_df).find?
        (fun r => decide (keyCS r = k)) = some r₀ := by
      rw [List.find?_append, h]
      rfl
    have hkey : keyCS r₀ = k := by simpa using List.find?_some happ
    have hloc : keyCS (loc ["symbol", "chromosome", "entrez_gene_id"] r₀) = k := by
      rw [keyCS_loc]
      exact hkey
    refine ⟨loc ["symbol", "chromosome", "entrez_gene_id"] r₀,
      first_key_in_map gene_df k r₀ happ, congrArg Prod.fst hloc,
      congrArg Prod.snd hloc, getCell_loc r₀ (by simp), ?_⟩
    intro r₂ h₂ hc hs
    have h2k : keyCS r₂ = k := by
      unfold keyCS
      rw [hc, hs]
    exact eq_of_pairwise_key (pairwise_map_keys gene_df) h₂
      (first_key_in_map gene_df k r₀ happ) (h2k.trans hloc.symm)
  · decide

set_option maxRecDepth 100000 in
/-- Witness for C2: on the TP53/P53 example the first primary candidate
with key (chromosome 1, symbol P53) is gene 2's row, and the final table
maps that key to it. -/
theorem approved_symbol_wins_witness :
    ∃ r ∈ get_chr_symbol_map (create_gene_df [gene_tp53, gene_p53]),
      getCell r "chromosome" = keyP53.1 ∧ getCell r "symbol" = keyP53.2 ∧
      getCell r "entrez_gene_id" = getCell rowP53primary "entrez_gene_id" ∧
      ∀ r₂ ∈ get_chr_symbol_map (create_gene_df [gene_tp53, gene_p53]),
        getCell r₂ "chromosome" = keyP53.1 → getCell r₂ "symbol" = keyP53.2 → r₂ = r :=
  approved_symbol_wins.1 (create_gene_df [gene_tp53, gene_p53]) keyP53 rowP53primary
    (by decide)

/-- C9: when several primary candidates (two genes with the same approved
symbol on the same chromosome) share a key, the pair is not dropped: the
final table keeps the first primary occurrence, whose identifier is minimal
among all primary candidates with that key, the gene catalog being sorted
ascending by identifier. -/
theorem duplicate_primary_smallest_id (raw : List GeneInfoRow)
    (k : Option Cell × Option Cell)
    (hdup : 2 ≤ (primary_df (create_gene_df raw)).countP
      (fun r => decide (keyCS r = k))) :
    ∃ r₀, (primary_df (create_gene_df raw)).find?
        (fun r => decide (keyCS r = k)) = some r₀ ∧
      (∃ r ∈ get_chr_symbol_map (create_gene_df raw),
        getCell r "chromosome" = k.1 ∧ getCell r "symbol" = k.2 ∧
        getCell r "entrez_gene_id" = getCell r₀ "entrez_gene_id") ∧
      ∀ r₂ ∈ primary_df (create_gene_df raw), keyCS r₂ = k →
        cellIntLe (getCell r₀ "entrez_gene_id") (getCell r₂ "entrez_gene_id") = true := by
  have hpos : 0 < (primary_df (create_gene_df raw)).countP
      (fun r => decide (keyCS r = k)) := lt_of_lt_of_le (by norm_num) hdup
  obtain ⟨a, ha, hpa⟩ := List.countP_pos_iff.mp hpos
  have hs : ((primary_df (create_gene_df raw)).find?
      (fun r => decide (keyCS r = k))).isSome = true :=
    List.find?_isSome.mpr ⟨a, ha, hpa⟩
  obtain ⟨r₀, h₀⟩ := Option.isSome_iff_exists.mp hs
  have happ : (primary_df (create_gene_df raw) ++
      synonym_df (create_gene_df raw)).find?
      (fun r => decide (keyCS r = k)) = some r₀ := by
    rw [List.find?_append, h₀]
    rfl
  have hkey : keyCS r₀ = k := by simpa using List.find?_some happ
  have hloc : keyCS (loc ["symbol", "chromosome", "entrez_gene_id"] r₀) = k := by
    rw [keyCS_loc]
    exact hkey
  refine ⟨r₀, h₀, ⟨loc ["symbol", "chromosome", "entrez_gene_id"] r₀,
    first_key_in_map _ k r₀ happ, congrArg Prod.fst hloc, congrArg Prod.snd hloc,
    getCell_loc r₀ (by simp)⟩, ?_⟩
  intro r₂ h₂ hk₂
  exact @find?_min Row entrezLe (fun r => decide (keyCS r = k))
    (fun a => cellIntLe_refl _) (primary_df (create_gene_df raw)) r₀
    (pairwise_primary raw) h₀ r₂ h₂ (decide_eq_true hk₂)

set_option maxRecDepth 100000 in
/-- Witness for C9: genes 7 and 3 both carry approved symbol DUP on
chromosome 1; the final table keeps the pair, mapped to identifier 3. -/
theorem duplicate_primary_smallest_id_witness :
    ∃ r₀, (primary_df (create_gene_df [gene_dup7, gene_dup3])).find?
        (fun r => decide (keyCS r = keyDUP)) = some r₀ ∧
      (∃ r ∈ get_chr_symbol_map (create_gene_df [gene_dup7, gene_dup3]),
        getCell r "chromosome" = keyDUP.1 ∧ getCell r "symbol" = keyDUP.2 ∧
        getCell r "entrez_gene_id" = getCell r₀ "entrez_gene_id") ∧
      ∀ r₂ ∈ primary_df (create_gene_df [gene_dup7, gene_dup3]), keyCS r₂ = keyDUP →
        cellIntLe (getCell r₀ "entrez_gene_id") (getCell r₂ "entrez_gene_id") = true :=
  duplicate_primary_smallest_id [gene_dup7, gene_dup3] keyDUP (by decide)

set_option maxRecDepth 100000 in
/-- C3: a (chromosome, symbol) pair occurring on more than one
synonym-candidate row loses ALL its rows, a pair occurring on exactly one
row is kept; on the concrete example where two genes both list synonym X on
chromosome 2 and neither has X as approved symbol, no row for symbol X
appears in the final output. -/
theorem ambiguous_synonyms_dropped :
    (∀ (gene_df : List Row) (k : Option Cell × Option Cell),
        2 ≤ (synonym_candidates gene_df).countP (fun r => decide (keyCS r = k)) →
        ∀ r ∈ synonym_df gene_df, keyCS r ≠ k)
    ∧ (∀ (gene_df : List Row) (k : Option Cell × Option Cell) (r : Row),
        (synonym_candidates gene_df).countP (fun r => decide (keyCS r = k)) = 1 →
        r ∈ synonym_candidates gene_df → keyCS r = k → r ∈ synonym_df gene_df)
    ∧ (∀ r ∈ get_chr_symbol_map (create_gene_df [gene_ax, gene_bx]),
        getCell r "symbol" ≠ some (Cell.str "X".data)) := by
  refine ⟨?_, ?_, by decide⟩
  · intro gene_df k h2 r hr hk
    have hmem := List.mem_filter.mp hr
    have hcnt : (synonym_candidates gene_df).countP
        (fun b => decide (keyCS b = keyCS r)) = 1 := by
      simpa using hmem.2
    have hco : (synonym_candidates gene_df).countP (fun b => decide (keyCS b = keyCS r)) =
        (synonym_candidates gene_df).countP (fun b => decide (keyCS b = k)) :=
      List.countP_congr (fun x hx => by rw [hk])
    omega
  · intro gene_df k r h1 hr hk
    refine List.mem_filter.mpr ⟨hr, ?_⟩
    have hco : (synonym_candidates gene_df).countP (fun b => decide (keyCS b = keyCS r)) =
        (synonym_candidates gene_df).countP (fun b => decide (keyCS b = k)) :=
      List.countP_congr (fun x hx => by rw [hk])
    simp only [decide_eq_true_eq]
    omega

set_option maxRecDepth 100000 in
/-- Witness for C3: a synonym whose (chromosome, symbol) pair occurs on
exactly one candidate row survives the disambiguation step. -/
theorem ambiguous_synonyms_dropped_witness :
    rowU ∈ synonym_df (create_gene_df [gene_u]) :=
  ambiguous_synonyms_dropped.2.1 (create_gene_df [gene_u])
    (some (Cell.str "3".data), some (Cell.str "U".data)) rowU
    (by decide) (by decide) (by decide)

set_option maxRecDepth 100000 in
/-- C4: the Row Splitter replaces each row whose target field splits into N
substrings by N rows, copies of the original except the target column; on
value A|B|A with keep false it yields exactly the rows A, B, A, with keep
true additionally the combined row; a single-valued field gets no extra row
even with keep true. -/
theorem tidy_split_spec :
    (∀ (df : List Row) (column : String) (sep : List Char),
        tidy_split df column sep false = df.flatMap (fun r =>
          match getCell r column with
          | none => []
          | some cell =>
            (splitSep sep cell.toText).map (fun v => setCell r column (Cell.str v))))
    ∧ (∀ (r : Row) (column c' : String) (v : Cell), c' ≠ column →
        getCell (setCell r column v) c' = getCell r c')
    ∧ tidy_split [rowVal "A|B|A"] "v" sepBar false =
        [rowVal "A", rowVal "B", rowVal "A"]
    ∧ tidy_split [rowVal "A|B|A"] "v" sepBar true =
        [rowVal "A|B|A", rowVal "A", rowVal "B", rowVal "A"]
    ∧ (∀ (df : List Row) (column : String) (sep : List Char),
        (∀ r ∈ df, ∀ cell, getCell r column = some cell →
          (splitSep sep cell.toText).length = 1) →
        tidy_split df column sep true = tidy_split df column sep false) := by
  refine ⟨?_, ?_, by decide, by decide, ?_⟩
  · intro df column sep
    unfold tidy_split
    refine (flatMap_filter _ _ ?_ df).trans (List.flatMap_congr ?_)
    · intro a hpa
      have hnone : getCell a column = none := by
        cases h : getCell a column
        · rfl
        · rw [h] at hpa
          simp at hpa
      simp [hnone]
    · intro a ha
      cases h : getCell a column with
      | none => simp [h]
      | some cell => simp [h]
  · intro r column c' v h
    exact getCell_setCell_ne r v h
  · intro df column sep h
    unfold tidy_split
    refine List.flatMap_congr ?_
    intro a ha
    have ha' : a ∈ df := List.mem_of_mem_filter ha
    cases hm : getCell a column with
    | none => simp [hm]
    | some cell =>
      have hlen := h a ha' cell hm
      simp [hm, hlen]

/-- Witness for C4: on a single-valued field the keep flag is irrelevant. -/
theorem tidy_split_spec_witness :
    tidy_split [rowSingle] "v" sepBar true = tidy_split [rowSingle] "v" sepBar false :=
  tidy_split_spec.2.2.2.2 [rowSingle] "v" sepBar (by
    intro r hr cell hcell
    have hr' : r = rowSingle := List.mem_singleton.mp hr
    subst hr'
    have h0 : getCell rowSingle "v" = some (Cell.str "A".data) := by decide
    rw [h0] at hcell
    injection hcell with h1
    subst h1
    decide)

/-- C5: a row whose target column is missing contributes no row at all to
the Row Splitter's output, for every table, column, separator and keep
flag. -/
theorem missing_target_dropped (df : List Row) (column : String) (sep : List Char)
    (keep : Bool) (r : Row) (h : getCell r column = none) :
    tidy_split (r :: df) column sep keep = tidy_split df column sep keep ∧
    tidy_split [r] column sep keep = [] := by
  constructor
  · unfold tidy_split
    rw [List.filter_cons, if_neg (by simp [h])]
  · unfold tidy_split
    rw [List.filter_cons, if_neg (by simp [h])]
    rfl

/-- Witness for C5: a row with a missing target column is dropped. -/
theorem missing_target_dropped_witness :
    tidy_split (rowMissing :: [rowVal "A|B|A"]) "v" sepBar true =
        tidy_split [rowVal "A|B|A"] "v" sepBar true ∧
      tidy_split [rowMissing] "v" sepBar true = [] :=
  missing_target_dropped [rowVal "A|B|A"] "v" sepBar true rowMissing (by decide)

/-- C10: with keep true, the combined (unsplit) value's row is emitted
before the individual split-value rows of its original row. -/
theorem combined_value_precedes (df : List Row) (column : String) (sep : List Char)
    (r : Row) (cell : Cell) (h : getCell r column = some cell)
    (hlen : 1 < (splitSep sep cell.toText).length) :
    tidy_split (r :: df) column sep true =
      (setCell r column (Cell.str cell.toText) ::
        (splitSep sep cell.toText).map (fun v => setCell r column (Cell.str v))) ++
        tidy_split df column sep true := by
  unfold tidy_split
  rw [List.filter_cons, if_pos (by simp [h]), List.flatMap_cons]
  simp [h, hlen]

/-- Witness for C10: on value A|B the combined row comes first. -/
theorem combined_value_precedes_witness :
    tidy_split (rowAB :: []) "v" sepBar true =
      (setCell rowAB "v" (Cell.str (Cell.str "A|B".data).toText) ::
        (splitSep sepBar (Cell.str "A|B".data).toText).map
          (fun v => setCell rowAB "v" (Cell.str v))) ++
        tidy_split [] "v" sepBar true :=
  combined_value_precedes [] "v" sepBar rowAB (Cell.str "A|B".data) (by decide) (by decide)

/-- C6: a row appears in the History Mapper's output exactly when its taxon
is 9606 and its new identifier is present (then cast to integer), and the
output is sorted ascending by old identifier. -/
theorem history_row_spec (rows : List HistoryRow) (out : HistoryOut) :
    (out ∈ create_history_df rows ↔
      ∃ r ∈ rows, r.tax_id = some 9606 ∧ ∃ n, r.geneID = some n ∧
        out = { old_entrez_gene_id := r.discontinued_GeneID,
                new_entrez_gene_id := n, date := r.discontinue_Date })
    ∧ List.Pairwise (fun a b => historyLe a b = true) (create_history_df rows) := by
  constructor
  · unfold create_history_df
    rw [(perm_sortBy historyLe _).mem_iff, List.mem_filterMap]
    constructor
    · rintro ⟨r, hr, hf⟩
      rcases Option.map_eq_some'.mp hf with ⟨n, hn, hout⟩
      rcases List.mem_filter.mp hr with ⟨hrs, htax⟩
      exact ⟨r, hrs, by simpa using htax, n, hn, hout.symm⟩
    · rintro ⟨r, hrs, htax, n, hn, rfl⟩
      refine ⟨r, List.mem_filter.mpr ⟨hrs, by simpa using htax⟩, ?_⟩
      rw [hn, Option.map_some']
  · exact pairwise_sortBy historyLe_total historyLe_trans _

/-- C7 counterexample: a history row with an absent old identifier (taxon
9606, new identifier present) is NOT discarded — it appears in the
output. -/
theorem history_missing_old_cex :
    ¬ (create_history_df [histNoOld] = []) ∧
    ∃ out ∈ create_history_df [histNoOld], out.old_entrez_gene_id = none := by
  decide

/-- C7 amended: rows whose old identifier is absent are retained by the
History Mapper whenever the taxon is 9606 and the new identifier is
present; only rows lacking a new identifier are dropped. -/
theorem history_missing_old_retained (rows : List HistoryRow) (r : HistoryRow) (n : Int)
    (hr : r ∈ rows) (htax : r.tax_id = some 9606) (hnew : r.geneID = some n)
    (hold : r.discontinued_GeneID = none) :
    ({ old_entrez_gene_id := none, new_entrez_gene_id := n,
       date := r.discontinue_Date } : HistoryOut) ∈ create_history_df rows := by
  unfold create_history_df
  rw [(perm_sortBy historyLe _).mem_iff]
  refine List.mem_filterMap.mpr ⟨r, List.mem_filter.mpr ⟨hr, by simpa using htax⟩, ?_⟩
  rw [hnew, Option.map_some', hold]

/-- Witness for the amended C7 at a concrete history table. -/
theorem history_missing_old_retained_witness :
    ({ old_entrez_gene_id := none, new_entrez_gene_id := 5,
       date := histNoOld.discontinue_Date } : HistoryOut) ∈
      create_history_df [histNoOld] :=
  history_missing_old_retained [histNoOld] histNoOld 5 (by decide) rfl rfl rfl

/-- C8 counterexample: the program writes four output files, not three, and
the gene catalog's columns include other_id, so the claimed column list is
wrong. -/
theorem outputs_and_columns_cex :
    ¬ (main_output_paths.length = 3 ∧
      create_gene_df_columns =
        ["entrez_gene_id", "symbol", "description", "chromosome", "gene_type",
         "synonyms", "aliases"]) := by
  decide

/-- C8 amended: the program produces exactly four output tables (history
map, gene catalog, gene cross-references, symbol lookup), and the gene
catalog has exactly the columns entrez_gene_id, symbol, other_id,
description, chromosome, gene_type, synonyms, aliases, which are also the
columns of every produced gene row. -/
theorem outputs_and_columns :
    main_output_paths.length = 4 ∧
    create_gene_df_columns =
      ["entrez_gene_id", "symbol", "other_id", "description", "chromosome",
       "gene_type", "synonyms", "aliases"] ∧
    ∀ g : GeneInfoRow, (geneToRow g).map Prod.fst = create_gene_df_columns := by
  refine ⟨by decide, by decide, ?_⟩
  intro g
  rfl
